import Mathlib

/-!
Shallow embedding of `src/virtualmemory.h`: a fixed-capacity growable array
(`VirtualMemory<T>`) whose storage is a single OS virtual-memory reservation.

Modelling conventions:
* machine pointers and `size_t` are `Nat`; the `size_t` multiplication on
  line 25 of the source wraps modulo `2 ^ w` (`w` = bit width of `size_t`),
  made explicit in `byteLength`;
* the OS is passed in as explicit parameters: `reserve` models the
  reservation call of the constructor (`mmap` / `VirtualAlloc(MEM_RESERVE)`),
  returning `none` on failure, and `remap` models the result of the
  `MAP_FIXED` re-mapping performed by `Reset`;
* a failure of `rmsAssert` aborts the process; it is modelled as
  `Except.error` carrying a `Fatal` tag and (for the mutating operations)
  the state of the object at the moment of the abort, so that theorems can
  speak about what the fatal path left unchanged;
* dereferencing a null `memory_` and reading a slot in which no element was
  ever constructed are undefined behaviour in the source; the embedding
  makes them explicit error outcomes (`nullDeref`, `uninitRead`) so that
  theorems can prove them unreachable.
-/

/-- Ways the program leaves the normal path: each `rmsAssert` of the source,
plus explicit markers for the undefined behaviour the embedding surfaces. -/
inductive Fatal where
  /-- `rmsAssert(memory != MAP_FAILED)` (line 32) failing in the constructor. -/
  | reservationFailure
  /-- `rmsAssert(count_ < capacity_)` (line 84) failing in `emplace_back`. -/
  | capacityExceeded
  /-- `rmsAssert(index < count_)` (lines 72, 77) failing in `operator[]`. -/
  | outOfBounds
  /-- `rmsAssert(memory == memory_)` (line 65) failing in `Reset`. -/
  | resetRemapFailed
  /-- Undefined behaviour: dereferencing a null `memory_`. -/
  | nullDeref
  /-- Undefined behaviour: reading a slot holding no constructed element. -/
  | uninitRead
  deriving DecidableEq

/-- The state of a `VirtualMemory<T>` object (lines 111-114 of the source):
`memory_` is the base address (`none` models the null pointer stored when
`capacity == 0`), `store_` models the contents of the mapped slots
(`store_ i = some v` iff a `T` with value `v` is constructed in slot `i`),
`capacity_` and `count_` are the two `size_t` fields. -/
structure VirtualMemory (T : Type) where
  memory_ : Option Nat
  store_ : Nat → Option T
  capacity_ : Nat
  count_ : Nat

/-- Line 25: `size_t length = sizeof(T) * capacity_;` — the byte length of
the reservation, computed in `size_t` arithmetic, so wrapping modulo
`2 ^ w`. No overflow check appears in the source. -/
def byteLength (esize w cap : Nat) : Nat :=
  (esize * cap) % 2 ^ w

/-- The constructor (lines 18-37): `capacity == 0` short-circuits to a null
`memory_` without consulting the OS; otherwise the reservation call is made
with the (possibly wrapped) byte length and its failure is the fatal
assertion `reservationFailure`. `reserve` models the OS call, `esize`
models `sizeof(T)`, `w` the bit width of `size_t`. -/
def VirtualMemory.construct (T : Type) (esize w cap : Nat)
    (reserve : Nat → Option Nat) : Except Fatal (VirtualMemory T) :=
  if cap = 0 then
    .ok ⟨none, fun _ => none, cap, 0⟩
  else
    match reserve (byteLength esize w cap) with
    | none => .error .reservationFailure
    | some base => .ok ⟨some base, fun _ => none, cap, 0⟩

/-- `T& operator[](size_t index)` (lines 71-74): assert `index < count_`,
then return `memory_[index]`. The returned reference is modelled by the
value of the live element. -/
def VirtualMemory.opIndex {T : Type} (vm : VirtualMemory T) (index : Nat) :
    Except Fatal T :=
  if index < vm.count_ then
    match vm.memory_ with
    | none => .error .nullDeref
    | some _ =>
      match vm.store_ index with
      | none => .error .uninitRead
      | some v => .ok v
  else .error .outOfBounds

/-- `const T& operator[](size_t index) const` (lines 76-79): the read-only
overload, with a body identical to the mutable one. -/
def VirtualMemory.opIndexConst {T : Type} (vm : VirtualMemory T) (index : Nat) :
    Except Fatal T :=
  if index < vm.count_ then
    match vm.memory_ with
    | none => .error .nullDeref
    | some _ =>
      match vm.store_ index with
      | none => .error .uninitRead
      | some v => .ok v
  else .error .outOfBounds

/-- `emplace_back` (lines 81-99): assert `count_ < capacity_`, construct the
element in slot `count_` and advance `count_`. On the non-Windows path the
freshly mapped pages are demand-paged, so the placement construction always
succeeds once the assertion passed and `memory_` is non-null. The fatal path
carries the unmodified state (the assertion precedes the increment). -/
def VirtualMemory.emplace_back {T : Type} (vm : VirtualMemory T) (val : T) :
    Except (Fatal × VirtualMemory T) (T × VirtualMemory T) :=
  if vm.count_ < vm.capacity_ then
    match vm.memory_ with
    | none => .error (.nullDeref, vm)
    | some _ =>
      .ok (val,
        { vm with
          store_ := fun i => if i = vm.count_ then some val else vm.store_ i
          count_ := vm.count_ + 1 })
  else .error (.capacityExceeded, vm)

/-- `Reset` (lines 53-69): when `memory_` is non-null, the range is re-mapped
in place (`mmap` with `MAP_FIXED` at `memory_`) which discards all physical
backing, and `rmsAssert(memory == memory_)` makes any other outcome fatal;
then `count_ = 0`. `remap` models the address returned by the re-mapping
call (`none` models `MAP_FAILED`). Discarded backing is modelled by
emptying `store_`: previously stored values do not persist. -/
def VirtualMemory.Reset {T : Type} (vm : VirtualMemory T)
    (remap : Option Nat) : Except (Fatal × VirtualMemory T) (VirtualMemory T) :=
  match vm.memory_ with
  | none => .ok { vm with count_ := 0 }
  | some base =>
    if remap = some base then
      .ok { vm with store_ := fun _ => none, count_ := 0 }
    else .error (.resetRemapFailed, vm)

/-- `size_t capacity() const` (lines 101-104). -/
def VirtualMemory.capacity {T : Type} (vm : VirtualMemory T) : Nat :=
  vm.capacity_

/-- `size_t size() const` (lines 106-109). -/
def VirtualMemory.size {T : Type} (vm : VirtualMemory T) : Nat :=
  vm.count_

/-- Driver for sequences of appends: perform `emplace_back` once per value
in `vals`, stopping at the first fatal outcome. -/
def VirtualMemory.appendAll {T : Type} :
    VirtualMemory T → List T → Except (Fatal × VirtualMemory T) (VirtualMemory T)
  | vm, [] => .ok vm
  | vm, v :: vs =>
    match vm.emplace_back v with
    | .ok (_, vm') => vm'.appendAll vs
    | .error e => .error e

/-- The states a `VirtualMemory<T>` object can actually be in: freshly
constructed, or reached from a reachable state by a successful
`emplace_back` or `Reset` (indexed access does not change the state). -/
inductive VirtualMemory.Reachable {T : Type} : VirtualMemory T → Prop where
  | constructed (esize w cap : Nat) (reserve : Nat → Option Nat)
      (vm : VirtualMemory T) :
      VirtualMemory.construct T esize w cap reserve = .ok vm → Reachable vm
  | emplaced (vm : VirtualMemory T) (val r : T) (vm' : VirtualMemory T) :
      Reachable vm → vm.emplace_back val = .ok (r, vm') → Reachable vm'
  | reset (vm : VirtualMemory T) (remap : Option Nat) (vm' : VirtualMemory T) :
      Reachable vm → vm.Reset remap = .ok vm' → Reachable vm'

/-- The state invariant of the data model: the count never exceeds the
capacity, a null base occurs only for `capacity == 0`, and every slot below
`count_` holds a constructed element. -/
def VirtualMemory.Inv {T : Type} (vm : VirtualMemory T) : Prop :=
  vm.count_ ≤ vm.capacity_ ∧
  (vm.memory_ = none → vm.capacity_ = 0) ∧
  (∀ i, i < vm.count_ → vm.store_ i ≠ none)

/-- Characterization of a successful construction. -/
theorem VirtualMemory.construct_ok {T : Type} {esize w cap : Nat}
    {reserve : Nat → Option Nat} {vm : VirtualMemory T}
    (h : VirtualMemory.construct T esize w cap reserve = .ok vm) :
    vm.count_ = 0 ∧ vm.capacity_ = cap ∧ vm.store_ = (fun _ => none) ∧
    ((cap = 0 ∧ vm.memory_ = none) ∨
      (cap ≠ 0 ∧ ∃ b, reserve (byteLength esize w cap) = some b ∧
        vm.memory_ = some b)) := by
  unfold VirtualMemory.construct at h
  split at h
  · rename_i hcap
    simp only [Except.ok.injEq] at h
    subst h
    exact ⟨rfl, rfl, rfl, Or.inl ⟨hcap, rfl⟩⟩
  · rename_i hcap
    split at h
    · simp at h
    · rename_i b hb
      simp only [Except.ok.injEq] at h
      subst h
      exact ⟨rfl, rfl, rfl, Or.inr ⟨hcap, b, hb, rfl⟩⟩

/-- Characterization of a successful `emplace_back`. -/
theorem VirtualMemory.emplace_back_ok {T : Type} {vm : VirtualMemory T}
    {val r : T} {vm' : VirtualMemory T}
    (h : vm.emplace_back val = .ok (r, vm')) :
    vm.count_ < vm.capacity_ ∧ vm.memory_ ≠ none ∧ r = val ∧
    vm'.memory_ = vm.memory_ ∧ vm'.capacity_ = vm.capacity_ ∧
    vm'.count_ = vm.count_ + 1 ∧
    vm'.store_ = (fun i => if i = vm.count_ then some val else vm.store_ i) := by
  unfold VirtualMemory.emplace_back at h
  split at h
  · rename_i hlt
    split at h
    · simp at h
    · rename_i b hb
      simp only [Except.ok.injEq, Prod.mk.injEq] at h
      obtain ⟨hr, hvm⟩ := h
      subst hvm
      exact ⟨hlt, by simp [hb], hr.symm, rfl, rfl, rfl, rfl⟩
  · simp at h

/-- Characterization of a successful `Reset`. -/
theorem VirtualMemory.Reset_ok {T : Type} {vm : VirtualMemory T}
    {remap : Option Nat} {vm' : VirtualMemory T}
    (h : vm.Reset remap = .ok vm') :
    vm'.count_ = 0 ∧ vm'.capacity_ = vm.capacity_ ∧ vm'.memory_ = vm.memory_ ∧
    ((vm.memory_ = none ∧ vm'.store_ = vm.store_) ∨
      (∃ b, vm.memory_ = some b ∧ remap = some b ∧
        vm'.store_ = (fun _ => none))) := by
  unfold VirtualMemory.Reset at h
  split at h
  · rename_i hm
    simp only [Except.ok.injEq] at h
    subst h
    exact ⟨rfl, rfl, by simp [hm], Or.inl ⟨hm, rfl⟩⟩
  · rename_i b hm
    split at h
    · rename_i hremap
      simp only [Except.ok.injEq] at h
      subst h
      exact ⟨rfl, rfl, by simp [hm], Or.inr ⟨b, hm, hremap, rfl⟩⟩
    · simp at h

/-- Every reachable state satisfies the data-model invariant. -/
theorem VirtualMemory.reachable_inv {T : Type} {vm : VirtualMemory T}
    (h : vm.Reachable) : vm.Inv := by
  induction h with
  | constructed esize w cap reserve vm h =>
    obtain ⟨hc, hcap, hst, hmem⟩ := VirtualMemory.construct_ok h
    refine ⟨by omega, ?_, ?_⟩
    · intro hnone
      rcases hmem with ⟨h0, _⟩ | ⟨_, b, _, hb⟩
      · omega
      · rw [hb] at hnone; cases hnone
    · intro i hi
      omega
  | emplaced vm val r vm' _ hstep ih =>
    obtain ⟨hlt, hmem, _, hm', hcap', hc', hst'⟩ :=
      VirtualMemory.emplace_back_ok hstep
    obtain ⟨ihle, ihmem, ihst⟩ := ih
    refine ⟨by omega, ?_, ?_⟩
    · intro hnone
      rw [hm'] at hnone
      exact absurd hnone hmem
    · intro i hi
      rw [hst']
      by_cases hieq : i = vm.count_
      · simp [hieq]
      · have : i < vm.count_ := by omega
        simpa [hieq] using ihst i this
  | reset vm remap vm' _ hstep ih =>
    obtain ⟨hc', hcap', hm', _⟩ := VirtualMemory.Reset_ok hstep
    obtain ⟨ihle, ihmem, ihst⟩ := ih
    refine ⟨by omega, ?_, ?_⟩
    · intro hnone
      rw [hm'] at hnone
      rw [hcap']
      exact ihmem hnone
    · intro i hi
      omega

/-- Characterization of a successful run of appends: the base and capacity
are untouched, the count advances by the number of values, slots below the
starting count keep their contents, and slot `count + j` receives the
`j`-th value. -/
theorem VirtualMemory.appendAll_ok {T : Type} (vals : List T) :
    ∀ (vm vm' : VirtualMemory T), vm.appendAll vals = .ok vm' →
    vm'.memory_ = vm.memory_ ∧ vm'.capacity_ = vm.capacity_ ∧
    vm'.count_ = vm.count_ + vals.length ∧
    (∀ i, i < vm.count_ → vm'.store_ i = vm.store_ i) ∧
    (∀ j (hj : j < vals.length),
      vm'.store_ (vm.count_ + j) = some (vals.get ⟨j, hj⟩)) ∧
    (vals = [] ∨ vm.memory_ ≠ none) := by
  induction vals with
  | nil =>
    intro vm vm' h
    unfold VirtualMemory.appendAll at h
    simp only [Except.ok.injEq] at h
    subst h
    refine ⟨rfl, rfl, by simp, fun i _ => rfl, ?_, Or.inl rfl⟩
    intro j hj
    simp at hj
  | cons v vs ih =>
    intro vm vm' h
    unfold VirtualMemory.appendAll at h
    split at h
    · rename_i r vm1 hstep
      obtain ⟨hlt, hmem, _, hm1, hcap1, hc1, hst1⟩ :=
        VirtualMemory.emplace_back_ok hstep
      obtain ⟨ihm, ihcap, ihc, ihkeep, ihnew, _⟩ := ih vm1 vm' h
      refine ⟨by rw [ihm, hm1], by rw [ihcap, hcap1], by
        rw [ihc, hc1]; simp; omega, ?_, ?_, Or.inr hmem⟩
      · intro i hi
        have h1 : i < vm1.count_ := by omega
        rw [ihkeep i h1, hst1]
        have : ¬ i = vm.count_ := by omega
        simp [this]
      · intro j hj
        cases j with
        | zero =>
          have h1 : vm.count_ < vm1.count_ := by omega
          rw [Nat.add_zero, ihkeep vm.count_ h1, hst1]
          simp
        | succ k =>
          have hk : k < vs.length := by simpa using hj
          have harg : vm.count_ + (k + 1) = vm1.count_ + k := by omega
          rw [harg, ihnew k hk]
          simp
    · rename_i e hstep
      simp at h

/-- A freshly constructed capacity-2 instance over `Nat` elements
(element size 8, 64-bit `size_t`, base address 4096), used as the concrete
input of witnesses. -/
def vmDemo0 : VirtualMemory Nat :=
  ⟨some 4096, fun _ => none, 2, 0⟩

/-- `vmDemo0` after appending the value 5. -/
def vmDemo1 : VirtualMemory Nat :=
  ⟨some 4096, fun i => if i = 0 then some 5 else none, 2, 1⟩

/-- `vmDemo1` after appending the value 7 (the instance is now full). -/
def vmDemo2 : VirtualMemory Nat :=
  ⟨some 4096, fun i => if i = 1 then some 7 else if i = 0 then some 5 else none,
    2, 2⟩

/-- The capacity-0 instance: null base, nothing reserved. -/
def vmZero : VirtualMemory Nat :=
  ⟨none, fun _ => none, 0, 0⟩

theorem reachDemo0 : vmDemo0.Reachable :=
  .constructed 8 64 2 (fun _ => some 4096) vmDemo0 rfl

theorem reachDemo1 : vmDemo1.Reachable :=
  .emplaced vmDemo0 5 5 vmDemo1 reachDemo0 rfl

theorem reachDemo2 : vmDemo2.Reachable :=
  .emplaced vmDemo1 7 7 vmDemo2 reachDemo1 rfl

/-- C1: after any sequence of successful appends on a freshly constructed
instance, indexed access at every `i < size()` (through either overload)
returns exactly the value passed to the `i`-th `emplace_back`, and `size()`
equals the number of appends. -/
theorem C1_append_index_round_trip {T : Type} (esize w cap : Nat)
    (reserve : Nat → Option Nat) (vm0 vm1 : VirtualMemory T) (vals : List T)
    (i : Nat)
    (h0 : VirtualMemory.construct T esize w cap reserve = .ok vm0)
    (h1 : vm0.appendAll vals = .ok vm1)
    (hi : i < vals.length) :
    vm1.opIndex i = .ok (vals.get ⟨i, hi⟩) ∧
    vm1.opIndexConst i = .ok (vals.get ⟨i, hi⟩) ∧
    vm1.size = vals.length := by
  obtain ⟨hc0, hcap0, hst0, _⟩ := VirtualMemory.construct_ok h0
  obtain ⟨hm, hcap, hc, hkeep, hnew, hne⟩ :=
    VirtualMemory.appendAll_ok vals vm0 vm1 h1
  have hcount : vm1.count_ = vals.length := by omega
  have hilt : i < vm1.count_ := by omega
  have hmem : vm1.memory_ ≠ none := by
    rcases hne with hnil | hne
    · subst hnil; simp at hi
    · rw [hm]; exact hne
  have hsto : vm1.store_ i = some (vals.get ⟨i, hi⟩) := by
    have hx := hnew i hi
    have h00 : vm0.count_ + i = i := by omega
    rw [h00] at hx
    exact hx
  rcases hb : vm1.memory_ with _ | b
  · exact absurd hb hmem
  · exact ⟨by simp [VirtualMemory.opIndex, hilt, hb, hsto],
      by simp [VirtualMemory.opIndexConst, hilt, hb, hsto],
      hcount⟩

theorem C1_witness :
    VirtualMemory.construct Nat 8 64 2 (fun _ => some 4096) = .ok vmDemo0 ∧
    vmDemo0.appendAll [5, 7] = .ok vmDemo2 ∧
    vmDemo2.opIndex 1 = .ok 7 ∧ vmDemo2.size = 2 :=
  ⟨rfl, rfl,
    (C1_append_index_round_trip 8 64 2 (fun _ => some 4096) vmDemo0 vmDemo2
      [5, 7] 1 rfl rfl (by decide)).1,
    (C1_append_index_round_trip 8 64 2 (fun _ => some 4096) vmDemo0 vmDemo2
      [5, 7] 1 rfl rfl (by decide)).2.2⟩

/-- C2: `size()` is 0 right after construction, advances by exactly 1 on
each successful `emplace_back`, returns to 0 on `Reset`, and in every
reachable state `size() ≤ capacity()`. -/
theorem C2_size_dynamics (T : Type) :
    (∀ (esize w cap : Nat) (reserve : Nat → Option Nat)
        (vm : VirtualMemory T),
      VirtualMemory.construct T esize w cap reserve = .ok vm →
      vm.size = 0) ∧
    (∀ (vm : VirtualMemory T) (val r : T) (vm' : VirtualMemory T),
      vm.emplace_back val = .ok (r, vm') → vm'.size = vm.size + 1) ∧
    (∀ (vm : VirtualMemory T) (remap : Option Nat) (vm' : VirtualMemory T),
      vm.Reset remap = .ok vm' → vm'.size = 0) ∧
    (∀ vm : VirtualMemory T, vm.Reachable → vm.size ≤ vm.capacity) := by
  refine ⟨?_, ?_, ?_, ?_⟩
  · intro esize w cap reserve vm h
    exact (VirtualMemory.construct_ok h).1
  · intro vm val r vm' h
    exact (VirtualMemory.emplace_back_ok h).2.2.2.2.2.1
  · intro vm remap vm' h
    exact (VirtualMemory.Reset_ok h).1
  · intro vm h
    exact (VirtualMemory.reachable_inv h).1

/-- C3: whenever `count == capacity` (the capacity-0 instance included),
`emplace_back` takes the fatal-assertion path; the error carries the state
unchanged — the check precedes the increment, so no growth and no
truncation happen. -/
theorem C3_capacity_exceeded_fatal {T : Type} (vm : VirtualMemory T)
    (val : T) (h : vm.count_ = vm.capacity_) :
    vm.emplace_back val = .error (.capacityExceeded, vm) := by
  have hnlt : ¬ vm.count_ < vm.capacity_ := by omega
  simp [VirtualMemory.emplace_back, hnlt]

theorem C3_witness :
    vmZero.count_ = vmZero.capacity_ ∧
    vmZero.emplace_back 5 = .error (.capacityExceeded, vmZero) :=
  ⟨rfl, C3_capacity_exceeded_fatal vmZero 5 rfl⟩

/-- C4: both `operator[]` overloads hit the fatal out-of-bounds assertion
exactly when `index ≥ count` (so `index == size()` is fatal even below
capacity), and on a reachable state every `index < count` returns the live
element (so `size() - 1` succeeds on a non-empty container). -/
theorem C4_index_bounds (T : Type) :
    (∀ (vm : VirtualMemory T) (i : Nat),
      (vm.opIndex i = .error .outOfBounds ↔ vm.size ≤ i) ∧
      (vm.opIndexConst i = .error .outOfBounds ↔ vm.size ≤ i)) ∧
    (∀ vm : VirtualMemory T, vm.Reachable → ∀ i, i < vm.size →
      ∃ v, vm.opIndex i = .ok v ∧ vm.opIndexConst i = .ok v) := by
  constructor
  · intro vm i
    by_cases hlt : i < vm.count_
    · have hnle : ¬ vm.count_ ≤ i := by omega
      constructor <;>
        · simp only [VirtualMemory.opIndex, VirtualMemory.opIndexConst,
            VirtualMemory.size, hlt, if_true]
          rcases hb : vm.memory_ with _ | b <;>
            [simp [hnle]; rcases hv : vm.store_ i with _ | v <;> simp [hnle]]
    · have hle : vm.count_ ≤ i := by omega
      constructor <;>
        simp [VirtualMemory.opIndex, VirtualMemory.opIndexConst,
          VirtualMemory.size, hlt, hle]
  · intro vm hre i hi
    obtain ⟨hle, hmemInv, hst⟩ := VirtualMemory.reachable_inv hre
    have hmem : vm.memory_ ≠ none := by
      intro hn
      have := hmemInv hn
      have hi' : i < vm.count_ := hi
      omega
    rcases hb : vm.memory_ with _ | b
    · exact absurd hb hmem
    · have hi' : i < vm.count_ := hi
      rcases hv : vm.store_ i with _ | v
      · exact absurd hv (hst i hi')
      · exact ⟨v, by simp [VirtualMemory.opIndex, hi', hb, hv],
          by simp [VirtualMemory.opIndexConst, hi', hb, hv]⟩

/-- C5: `capacity()` equals the constructor argument, and no successful
operation changes `capacity_` or the base address `memory_`; moreover a
successful `Reset` required the re-mapping to land exactly on the original
base. -/
theorem C5_capacity_and_base_stable (T : Type) :
    (∀ (esize w cap : Nat) (reserve : Nat → Option Nat)
        (vm : VirtualMemory T),
      VirtualMemory.construct T esize w cap reserve = .ok vm →
      vm.capacity = cap) ∧
    (∀ (vm : VirtualMemory T) (val r : T) (vm' : VirtualMemory T),
      vm.emplace_back val = .ok (r, vm') →
      vm'.capacity = vm.capacity ∧ vm'.memory_ = vm.memory_) ∧
    (∀ (vm : VirtualMemory T) (remap : Option Nat) (vm' : VirtualMemory T),
      vm.Reset remap = .ok vm' →
      vm'.capacity = vm.capacity ∧ vm'.memory_ = vm.memory_ ∧
      (∀ b, vm.memory_ = some b → remap = some b)) := by
  refine ⟨?_, ?_, ?_⟩
  · intro esize w cap reserve vm h
    exact (VirtualMemory.construct_ok h).2.1
  · intro vm val r vm' h
    obtain ⟨_, _, _, hm, hcap, _, _⟩ := VirtualMemory.emplace_back_ok h
    exact ⟨hcap, hm⟩
  · intro vm remap vm' h
    obtain ⟨_, hcap, hm, hdisj⟩ := VirtualMemory.Reset_ok h
    refine ⟨hcap, hm, ?_⟩
    intro b hb
    rcases hdisj with ⟨hn, _⟩ | ⟨b', hb', hremap, _⟩
    · rw [hb] at hn; cases hn
    · rw [hb] at hb'
      cases hb'
      exact hremap

/-- C6: a successful `Reset` zeroes `size()` while keeping capacity and base
address; the instance stays usable — on any reachable state with positive
capacity, the next `emplace_back` after `Reset` succeeds and constructs its
element in slot 0 of the same base. -/
theorem C6_reset_then_append {T : Type} (vm : VirtualMemory T)
    (remap : Option Nat) (vm' : VirtualMemory T)
    (hre : vm.Reachable) (h : vm.Reset remap = .ok vm') :
    vm'.size = 0 ∧ vm'.capacity = vm.capacity ∧ vm'.memory_ = vm.memory_ ∧
    (∀ val : T, 0 < vm.capacity_ →
      ∃ vm'', vm'.emplace_back val = .ok (val, vm'') ∧
        vm''.store_ 0 = some val ∧ vm''.memory_ = vm.memory_ ∧
        vm''.size = 1) := by
  obtain ⟨hc', hcap', hm', _⟩ := VirtualMemory.Reset_ok h
  refine ⟨hc', hcap', hm', ?_⟩
  intro val hcap
  obtain ⟨_, hmemInv, _⟩ := VirtualMemory.reachable_inv hre
  have hmem : vm.memory_ ≠ none := by
    intro hn
    have := hmemInv hn
    omega
  rcases hb : vm'.memory_ with _ | b
  · rw [hm'] at hb
    exact absurd hb hmem
  · have hlt : vm'.count_ < vm'.capacity_ := by omega
    refine ⟨{ vm' with
        store_ := fun i => if i = vm'.count_ then some val else vm'.store_ i
        count_ := vm'.count_ + 1 }, ?_, ?_, ?_, ?_⟩
    · simp [VirtualMemory.emplace_back, hlt, hb]
    · simp [hc']
    · exact hm'
    · show vm'.count_ + 1 = 1
      omega

theorem C6_witness :
    vmDemo2.Reset (some 4096) = .ok vmDemo0 ∧
    (∃ vm'', vmDemo0.emplace_back 9 = .ok (9, vm'') ∧
      vm''.store_ 0 = some 9 ∧ vm''.memory_ = vmDemo2.memory_ ∧
      vm''.size = 1) :=
  ⟨rfl,
    (C6_reset_then_append vmDemo2 (some 4096) vmDemo0 reachDemo2
      rfl).2.2.2 9 (by decide)⟩

/-- C7: constructing with `capacity == 0` never consults the OS (the result
is the same for every `reserve`, and construction succeeds even when every
reservation would fail), yields a valid instance with `capacity() == 0`,
`size() == 0` and a null base, and every `emplace_back` on it is the fatal
precondition violation. -/
theorem C7_zero_capacity (T : Type) :
    (∀ (esize w : Nat) (r1 r2 : Nat → Option Nat),
      VirtualMemory.construct T esize w 0 r1 =
        VirtualMemory.construct T esize w 0 r2) ∧
    (∀ (esize w : Nat),
      VirtualMemory.construct T esize w 0 (fun _ => none) =
        .ok ⟨none, fun _ => none, 0, 0⟩) ∧
    (∀ (esize w : Nat) (reserve : Nat → Option Nat) (vm : VirtualMemory T),
      VirtualMemory.construct T esize w 0 reserve = .ok vm →
      vm.capacity = 0 ∧ vm.size = 0 ∧ vm.memory_ = none ∧
      ∀ val : T, vm.emplace_back val = .error (.capacityExceeded, vm)) := by
  refine ⟨fun esize w r1 r2 => rfl, fun esize w => rfl, ?_⟩
  intro esize w reserve vm h
  obtain ⟨hc, hcap, hst, hdisj⟩ := VirtualMemory.construct_ok h
  rcases hdisj with ⟨_, hmem⟩ | ⟨hne, _⟩
  · refine ⟨hcap, hc, hmem, fun val => ?_⟩
    have hnlt : ¬ vm.count_ < vm.capacity_ := by omega
    simp [VirtualMemory.emplace_back, hnlt]
  · exact absurd rfl hne

/-- C8: the constructor performs no overflow check on
`sizeof(T) * capacity` (line 25). At `sizeof(T) = 8`, `capacity = 2^61 + 1`
and a 64-bit `size_t`, the product overflows, wraps to 8, and the
reservation call is issued for — and succeeds at — the wrapped 8-byte
length, so construction completes with no fatal assertion, contradicting
the requirement that overflow be a precondition violation. The `reserve`
model here fails every request except the wrapped one, showing the wrapped
length is exactly what the OS is asked for. -/
theorem C8_overflow_unchecked :
    2 ^ 64 < 8 * (2 ^ 61 + 1) ∧
    byteLength 8 64 (2 ^ 61 + 1) = 8 ∧
    VirtualMemory.construct Nat 8 64 (2 ^ 61 + 1)
        (fun len => if len = 8 then some 4096 else none) =
      .ok ⟨some 4096, fun _ => none, 2 ^ 61 + 1, 0⟩ :=
  ⟨by norm_num, by decide, rfl⟩

/-- `EXCEPTION_ACCESS_VIOLATION` (0xC0000005), the code tested on line 120. -/
def EXCEPTION_ACCESS_VIOLATION : Nat := 0xC0000005

/-- `EXCEPTION_CONTINUE_EXECUTION` (-1): resume at the faulting instruction. -/
def EXCEPTION_CONTINUE_EXECUTION : Int := -1

/-- `EXCEPTION_EXECUTE_HANDLER` (1): run the `__except` block, whose body
(lines 92-93) is `rmsAssert(false, "Failed to commit page!")` — fatal. -/
def EXCEPTION_EXECUTE_HANDLER : Int := 1

/-- `PageFaultExceptionFilter` (lines 118-132): its only inputs are the
exception code and the result of
`VirtualAlloc(target, sizeof(T), MEM_COMMIT, PAGE_READWRITE)` at the slot
being constructed into (`target = &dest`, line 91), modelled by
`commitResult` (`none` = commit denied, `some p` = committed). The faulting
address recorded in the exception record is available to a Windows SEH
filter, but this filter never reads it: the commit always targets the slot,
and the decision depends on nothing else. -/
def PageFaultExceptionFilter (dwCode : Nat) (commitResult : Option Nat) :
    Int :=
  if dwCode = EXCEPTION_ACCESS_VIOLATION then
    match commitResult with
    | some _ => EXCEPTION_CONTINUE_EXECUTION
    | none => EXCEPTION_EXECUTE_HANDLER
  else EXCEPTION_EXECUTE_HANDLER

/-- Membership of an address in the reservation `[base, base + len)` — the
side condition the spec claims the handler checks before resuming. -/
def inReservation (base len addr : Nat) : Bool :=
  decide (base ≤ addr) && decide (addr < base + len)

/-- C9 counterexample: an access violation at address 999999 — outside a
reservation `[4096, 8192)` — still resumes execution once the commit at the
slot succeeds: the filter's verdict is computed without the faulting
address, so it cannot (and does not) restrict resumption to faults inside
the reservation, falsifying "resumes only if the faulting address lies
within the reservation". -/
theorem C9_counterexample :
    PageFaultExceptionFilter EXCEPTION_ACCESS_VIOLATION (some 4096) =
      EXCEPTION_CONTINUE_EXECUTION ∧
    inReservation 4096 4096 999999 = false :=
  ⟨rfl, rfl⟩

/-- C9 (amended): the filter resumes execution exactly when the exception
code is `EXCEPTION_ACCESS_VIOLATION` and the commit of `sizeof(T)` bytes at
the destination slot succeeded — independent of where the fault occurred —
and in every other case (other exception codes, or a failed commit) it
selects the fatal `__except` handler; there is no one-cycle guard, the same
verdict is produced on every fault of the same construction. -/
theorem C9_filter_behavior :
    (∀ (dwCode : Nat) (commitResult : Option Nat),
      PageFaultExceptionFilter dwCode commitResult =
          EXCEPTION_CONTINUE_EXECUTION ↔
        (dwCode = EXCEPTION_ACCESS_VIOLATION ∧ commitResult ≠ none)) ∧
    (∀ (dwCode : Nat) (commitResult : Option Nat),
      PageFaultExceptionFilter dwCode commitResult ≠
          EXCEPTION_CONTINUE_EXECUTION →
        PageFaultExceptionFilter dwCode commitResult =
          EXCEPTION_EXECUTE_HANDLER) := by
  constructor
  · intro dwCode cr
    by_cases hc : dwCode = EXCEPTION_ACCESS_VIOLATION <;>
      rcases cr with _ | p <;>
        simp [PageFaultExceptionFilter, hc, EXCEPTION_EXECUTE_HANDLER,
          EXCEPTION_CONTINUE_EXECUTION]
  · intro dwCode cr h
    by_cases hc : dwCode = EXCEPTION_ACCESS_VIOLATION <;>
      rcases cr with _ | p <;>
        simp_all [PageFaultExceptionFilter, hc]

/-- C10: in every reachable state a positive count implies a non-null base,
and under their respective preconditions neither `operator[]`
(`index < count`) nor `emplace_back` (`count < capacity`) can reach the
null-base dereference: the null case is unreachable past the assertions. -/
theorem C10_no_null_dereference {T : Type} (vm : VirtualMemory T)
    (hre : vm.Reachable) :
    (0 < vm.count_ → vm.memory_ ≠ none) ∧
    (∀ i, i < vm.count_ →
      vm.opIndex i ≠ .error .nullDeref ∧
      vm.opIndexConst i ≠ .error .nullDeref) ∧
    (∀ (val : T) (s : VirtualMemory T), vm.count_ < vm.capacity_ →
      vm.emplace_back val ≠ .error (.nullDeref, s)) := by
  obtain ⟨hle, hmemInv, hst⟩ := VirtualMemory.reachable_inv hre
  have key : 0 < vm.capacity_ → vm.memory_ ≠ none := by
    intro hpos hn
    have := hmemInv hn
    omega
  refine ⟨fun hpos => key (by omega), ?_, ?_⟩
  · intro i hi
    have hb := key (by omega)
    rcases hbm : vm.memory_ with _ | b
    · exact absurd hbm hb
    · rcases hv : vm.store_ i with _ | v
      · exact absurd hv (hst i hi)
      · exact ⟨by simp [VirtualMemory.opIndex, hi, hbm, hv],
          by simp [VirtualMemory.opIndexConst, hi, hbm, hv]⟩
  · intro val s hlt
    have hb := key (by omega)
    rcases hbm : vm.memory_ with _ | b
    · exact absurd hbm hb
    · simp [VirtualMemory.emplace_back, hlt, hbm]

theorem C10_witness :
    (0 < vmDemo1.count_ → vmDemo1.memory_ ≠ none) ∧
    (∀ i, i < vmDemo1.count_ →
      vmDemo1.opIndex i ≠ .error .nullDeref ∧
      vmDemo1.opIndexConst i ≠ .error .nullDeref) ∧
    (∀ (val : Nat) (s : VirtualMemory Nat),
      vmDemo1.count_ < vmDemo1.capacity_ →
      vmDemo1.emplace_back val ≠ .error (.nullDeref, s)) :=
  C10_no_null_dereference vmDemo1 reachDemo1
